import Mathlib

set_option autoImplicit false

/-!
Verification development for the dbot tracker-builder and filtering layer.

The definitions below are a shallow embedding of the C++ sources
`include/dbot/tracker/builder/rbc_particle_filter_tracker_builder.hpp` and
`source/dbot/tracker/rms_gaussian_filter_object_tracker.hpp`.  Components whose
implementation is not part of the two files (the coordinate particle filter,
the Gaussian filter and the tracker smoothing loop) are modelled from the
specification document; each such definition says so in its doc comment.
-/

namespace Dbot

/-! ## Sampling blocks (rbc_particle_filter_tracker_builder.hpp, lines 136-150) -/

/-- Embedding of `RbcParticleFilterTrackerBuilder::create_sampling_blocks`.
The C++ body allocates `blocks` empty vectors, then for `0 <= i < blocks` and
`0 <= k < block_size` pushes `i * block_size + k` into the i-th vector.  Both
arguments are C `int`, so they are kept as `Int`; a loop whose bound is not
positive runs zero times, which `Int.toNat` of the bound captures. -/
def create_sampling_blocks (blocks block_size : Int) : List (List Int) :=
  (List.range blocks.toNat).map fun (i : Nat) =>
    (List.range block_size.toNat).map fun (k : Nat) =>
      (i : Int) * block_size + (k : Int)

/-- Concatenating the arithmetic blocks in order yields the contiguous range. -/
lemma range_mul_flatten (n s : Nat) :
    ((List.range n).map fun i => (List.range s).map fun k => i * s + k).flatten
      = List.range (n * s) := by
  induction n with
  | zero => simp
  | succ n ih =>
    rw [List.range_succ, List.map_append, List.flatten_append, ih, Nat.succ_mul,
      List.range_add]
    simp

/-- Cast-free description of the sampling blocks for natural-number arguments. -/
lemma create_sampling_blocks_nat (n s : Nat) :
    create_sampling_blocks (n : Int) (s : Int)
      = ((List.range n).map fun i => (List.range s).map fun k => i * s + k).map
          (List.map fun (j : Nat) => (j : Int)) := by
  unfold create_sampling_blocks
  rw [Int.toNat_natCast, Int.toNat_natCast, List.map_map]
  refine List.map_congr_left fun i _ => ?_
  simp only [Function.comp_apply]
  rw [List.map_map]
  refine List.map_congr_left fun k _ => ?_
  simp only [Function.comp_apply]
  push_cast
  ring

/-- Flattened form of the sampling blocks for natural-number arguments. -/
lemma create_sampling_blocks_flatten_nat (n s : Nat) :
    (create_sampling_blocks (n : Int) (s : Int)).flatten
      = (List.range (n * s)).map fun (j : Nat) => (j : Int) := by
  rw [create_sampling_blocks_nat, ← List.map_flatten, range_mul_flatten]

/-! ## Model data consumed by the builder -/

/-- Object model collaborator: the builder only reads `count_parts()`. -/
structure ObjectModel where
  count_parts : Nat
deriving DecidableEq

/-- Camera data collaborator: the builder only stores and forwards it. -/
structure CameraData where
  width : Nat
  height : Nat
deriving DecidableEq

/-- State transition model: the builder only reads `noise_dimension()`. -/
structure StateTransitionModel where
  noise_dimension : Nat
deriving DecidableEq

/-- Observation model produced by the observation model builder. -/
structure ObservationModel where
  uses_gpu : Bool
deriving DecidableEq

/-- Modelled from the spec: the state transition builder exposes `build()`
returning a ready transition model with a fixed noise dimension. -/
structure StateTransitionBuilder where
  noise_dim : Nat
deriving DecidableEq

def StateTransitionBuilder.build (b : StateTransitionBuilder) : StateTransitionModel :=
  { noise_dimension := b.noise_dim }

/-- Error raised while assembling a tracker. -/
inductive BuildError where
  | noGpuSupportException
deriving DecidableEq

/-- Modelled from the spec: the observation model builder records whether the
requested model needs the GPU path and whether GPU support was compiled in. -/
structure ObservationModelBuilder where
  requires_gpu : Bool
  gpu_support_compiled : Bool
deriving DecidableEq

/-- Modelled from the spec: `build()` on the observation model builder raises
`NoGpuSupportException` when a GPU-dependent observation model is requested
while GPU support is not compiled in, and otherwise returns a ready model. -/
def ObservationModelBuilder.build (b : ObservationModelBuilder) :
    Except BuildError ObservationModel :=
  if b.requires_gpu && !b.gpu_support_compiled then
    Except.error BuildError.noGpuSupportException
  else
    Except.ok { uses_gpu := b.requires_gpu }

/-- Tracker parameters (rbc_particle_filter_tracker_builder.hpp, lines 59-64). -/
structure Parameters where
  evaluation_count : Int
  moving_average_update_rate : ℝ
  max_kl_divergence : ℝ

/-- Rao-Blackwellised coordinate particle filter instance as assembled by the
builder (the four constructor arguments of `Filter` at lines 121-124). -/
structure CoordinateFilter where
  state_transition_model : StateTransitionModel
  obsrv_model : ObservationModel
  sampling_blocks : List (List Int)
  max_kl_divergence : ℝ

/-- Tracker instance as assembled by `build()` (lines 93-98). -/
structure RbcParticleFilterObjectTracker where
  filter : CoordinateFilter
  object_model : ObjectModel
  camera_data : CameraData
  evaluation_count : Int
  moving_average_update_rate : ℝ

/-- Builder state (rbc_particle_filter_tracker_builder.hpp, lines 152-157). -/
structure RbcParticleFilterTrackerBuilder where
  state_transition_builder : StateTransitionBuilder
  obsrv_model_builder : ObservationModelBuilder
  object_model : ObjectModel
  camera_data : CameraData
  params : Parameters

/-- Embedding of `RbcParticleFilterTrackerBuilder::create_filter`
(lines 109-127): build the transition model, build the observation model
(which may raise `NoGpuSupportException`), derive the sampling blocks from
`count_parts()` and the integer division `noise_dimension() / count_parts()`,
and assemble the filter. -/
def RbcParticleFilterTrackerBuilder.create_filter
    (self : RbcParticleFilterTrackerBuilder) (object_model : ObjectModel)
    (max_kl_divergence : ℝ) : Except BuildError CoordinateFilter :=
  let state_transition_model := self.state_transition_builder.build
  match self.obsrv_model_builder.build with
  | Except.error e => Except.error e
  | Except.ok obsrv_model =>
      Except.ok
        { state_transition_model := state_transition_model
          obsrv_model := obsrv_model
          sampling_blocks :=
            create_sampling_blocks (object_model.count_parts : Int)
              ((state_transition_model.noise_dimension /
                  object_model.count_parts : Nat) : Int)
          max_kl_divergence := max_kl_divergence }

/-- Embedding of `RbcParticleFilterTrackerBuilder::build` (lines 89-101):
create the filter via `create_filter` with the stored object model and
`params_.max_kl_divergence`, then wrap it in a tracker together with the
stored object model, camera data, `params_.evaluation_count` and
`params_.moving_average_update_rate`. -/
def RbcParticleFilterTrackerBuilder.build
    (self : RbcParticleFilterTrackerBuilder) :
    Except BuildError RbcParticleFilterObjectTracker :=
  match self.create_filter self.object_model self.params.max_kl_divergence with
  | Except.error e => Except.error e
  | Except.ok filter =>
      Except.ok
        { filter := filter
          object_model := self.object_model
          camera_data := self.camera_data
          evaluation_count := self.params.evaluation_count
          moving_average_update_rate := self.params.moving_average_update_rate }

/-- Method view of `create_sampling_blocks`: a `const` member function receives
the builder state and returns it unchanged, since the body reads and writes no
member of the class. -/
def RbcParticleFilterTrackerBuilder.create_sampling_blocks_method
    (self : RbcParticleFilterTrackerBuilder) (blocks block_size : Int) :
    List (List Int) × RbcParticleFilterTrackerBuilder :=
  (create_sampling_blocks blocks block_size, self)

/-! ## Theorems about the builder -/

/-- C1: for every pair of positive integers, create_sampling_blocks returns
exactly `blocks` ordered sequences, the i-th being the consecutive run from
i * block_size to i * block_size + block_size - 1, and concatenating the
sequences in order yields the index range [0, blocks * block_size) exactly
once, in increasing order. -/
theorem create_sampling_blocks_partition (blocks block_size : Int)
    (hb : 0 < blocks) (hs : 0 < block_size) :
    ((create_sampling_blocks blocks block_size).length : Int) = blocks ∧
    (∀ i : Nat, i < blocks.toNat →
      (create_sampling_blocks blocks block_size)[i]? =
        some ((List.range block_size.toNat).map fun (k : Nat) =>
          (i : Int) * block_size + (k : Int))) ∧
    (create_sampling_blocks blocks block_size).flatten =
      (List.range (blocks.toNat * block_size.toNat)).map fun (j : Nat) => (j : Int) := by
  refine ⟨?_, ?_, ?_⟩
  · simp [create_sampling_blocks, Int.toNat_of_nonneg hb.le]
  · intro i hi
    rw [create_sampling_blocks, List.getElem?_map, List.getElem?_range hi]
    rfl
  · have hbb : blocks = ((blocks.toNat : Nat) : Int) := (Int.toNat_of_nonneg hb.le).symm
    have hss : block_size = ((block_size.toNat : Nat) : Int) :=
      (Int.toNat_of_nonneg hs.le).symm
    conv_lhs => rw [hbb, hss]
    exact create_sampling_blocks_flatten_nat _ _

/-- Witness for create_sampling_blocks_partition at blocks = 2, block_size = 3. -/
theorem create_sampling_blocks_partition_witness :
    (((create_sampling_blocks 2 3).length : Int) = 2 ∧
      (∀ i : Nat, i < (2 : Int).toNat →
        (create_sampling_blocks 2 3)[i]? =
          some ((List.range (3 : Int).toNat).map fun (k : Nat) =>
            (i : Int) * 3 + (k : Int))) ∧
      (create_sampling_blocks 2 3).flatten =
        (List.range ((2 : Int).toNat * (3 : Int).toNat)).map fun (j : Nat) => (j : Int)) :=
  create_sampling_blocks_partition 2 3 (by decide) (by decide)

/-- C9: create_sampling_blocks is total for every nonnegative block count and
arbitrary block_size: it always returns exactly `blocks` sequences, and for
block_size ≤ 0 each of them is empty. -/
theorem create_sampling_blocks_total (blocks block_size : Int) (hb : 0 ≤ blocks) :
    ((create_sampling_blocks blocks block_size).length : Int) = blocks ∧
    (block_size ≤ 0 →
      create_sampling_blocks blocks block_size = List.replicate blocks.toNat []) := by
  constructor
  · simp [create_sampling_blocks, Int.toNat_of_nonneg hb]
  · intro hs
    simp [create_sampling_blocks, Int.toNat_of_nonpos hs, List.map_const']

/-- Witness for create_sampling_blocks_total at blocks = 3, block_size = -2. -/
theorem create_sampling_blocks_total_witness :
    (((create_sampling_blocks 3 (-2)).length : Int) = 3 ∧
      ((-2 : Int) ≤ 0 →
        create_sampling_blocks 3 (-2) = List.replicate (3 : Int).toNat [])) :=
  create_sampling_blocks_total 3 (-2) (by decide)

/-- C10: the const method create_sampling_blocks is deterministic — its result
depends only on the two arguments and not on any field of the builder — and it
leaves the builder state unchanged. -/
theorem create_sampling_blocks_method_pure
    (st₁ st₂ : RbcParticleFilterTrackerBuilder) (blocks block_size : Int) :
    (st₁.create_sampling_blocks_method blocks block_size).1
        = (st₂.create_sampling_blocks_method blocks block_size).1 ∧
    (st₁.create_sampling_blocks_method blocks block_size).2 = st₁ :=
  ⟨rfl, rfl⟩

/-- C2 counterexample: with count_parts = 2 and noise dimension 7 the division
truncates to block_size = 3; create_filter succeeds (it does not fail and is
not undefined) and the resulting blocks cover only [0, 6), silently omitting
the trailing noise index 6. -/
theorem create_filter_truncation_counterexample :
    (RbcParticleFilterTrackerBuilder.create_filter
        ⟨⟨7⟩, ⟨false, false⟩, ⟨2⟩, ⟨640, 480⟩, ⟨100, 1 / 2, 1⟩⟩ ⟨2⟩ 1).toOption.map
        CoordinateFilter.sampling_blocks = some [[0, 1, 2], [3, 4, 5]] ∧
    (StateTransitionBuilder.build ⟨7⟩).noise_dimension = 7 :=
  ⟨rfl, rfl⟩

/-- C2 amended: the sampling blocks built by create_filter tile the truncated
index range [0, count_parts * (noise_dimension / count_parts)) exactly once;
when count_parts divides the noise dimension that range is the full noise
index range [0, noise_dimension), and when it does not divide, create_filter
still succeeds and the trailing noise_dimension mod count_parts indices are
omitted rather than the construction failing. -/
theorem create_filter_sampling_blocks_tile (self : RbcParticleFilterTrackerBuilder)
    (om : ObjectModel) (kl : ℝ) (f : CoordinateFilter)
    (h : self.create_filter om kl = Except.ok f) :
    f.sampling_blocks.flatten =
      ((List.range (om.count_parts *
          (self.state_transition_builder.build.noise_dimension / om.count_parts))).map
        fun (j : Nat) => (j : Int)) ∧
    (om.count_parts ∣ self.state_transition_builder.build.noise_dimension →
      om.count_parts * (self.state_transition_builder.build.noise_dimension /
        om.count_parts) = self.state_transition_builder.build.noise_dimension) := by
  refine ⟨?_, fun hdvd => Nat.mul_div_cancel' hdvd⟩
  unfold RbcParticleFilterTrackerBuilder.create_filter at h
  cases hob : self.obsrv_model_builder.build with
  | error e => rw [hob] at h; simp at h
  | ok o =>
      rw [hob] at h
      simp only [Except.ok.injEq] at h
      subst h
      exact create_sampling_blocks_flatten_nat _ _

/-- Witness for create_filter_sampling_blocks_tile: a builder with noise
dimension 6 and two parts, whose blocks tile [0, 6) exactly. -/
theorem create_filter_sampling_blocks_tile_witness :
    (([[0, 1, 2], [3, 4, 5]] : List (List Int)).flatten =
        ((List.range (2 * (6 / 2))).map fun (j : Nat) => (j : Int)) ∧
      ((2 : Nat) ∣ 6 → 2 * (6 / 2) = 6)) :=
  create_filter_sampling_blocks_tile
    ⟨⟨6⟩, ⟨false, false⟩, ⟨2⟩, ⟨640, 480⟩, ⟨100, 1 / 2, 1⟩⟩ ⟨2⟩ 1
    ⟨⟨6⟩, ⟨false⟩, [[0, 1, 2], [3, 4, 5]], 1⟩ (by rfl)

/-- C7: when the requested observation model needs the GPU path and GPU support
is not compiled in, create_filter raises NoGpuSupportException, and build
aborts with the same error at construction time, producing no tracker. -/
theorem build_raises_no_gpu_support (self : RbcParticleFilterTrackerBuilder)
    (hreq : self.obsrv_model_builder.requires_gpu = true)
    (hsup : self.obsrv_model_builder.gpu_support_compiled = false) :
    self.create_filter self.object_model self.params.max_kl_divergence
        = Except.error BuildError.noGpuSupportException ∧
    self.build = Except.error BuildError.noGpuSupportException := by
  have hob : self.obsrv_model_builder.build
      = Except.error BuildError.noGpuSupportException := by
    simp [ObservationModelBuilder.build, hreq, hsup]
  constructor
  · simp [RbcParticleFilterTrackerBuilder.create_filter, hob]
  · simp [RbcParticleFilterTrackerBuilder.build,
      RbcParticleFilterTrackerBuilder.create_filter, hob]

/-- Witness for build_raises_no_gpu_support on a concrete GPU-requesting
builder compiled without GPU support. -/
theorem build_raises_no_gpu_support_witness :
    (RbcParticleFilterTrackerBuilder.create_filter
        ⟨⟨6⟩, ⟨true, false⟩, ⟨2⟩, ⟨640, 480⟩, ⟨100, 1 / 2, 1⟩⟩ ⟨2⟩ 1
          = Except.error BuildError.noGpuSupportException ∧
      RbcParticleFilterTrackerBuilder.build
        ⟨⟨6⟩, ⟨true, false⟩, ⟨2⟩, ⟨640, 480⟩, ⟨100, 1 / 2, 1⟩⟩
          = Except.error BuildError.noGpuSupportException) :=
  build_raises_no_gpu_support
    ⟨⟨6⟩, ⟨true, false⟩, ⟨2⟩, ⟨640, 480⟩, ⟨100, 1 / 2, 1⟩⟩ rfl rfl

/-- C8: build is pure composition — whenever create_filter applied to the
stored object model and the stored max_kl_divergence yields a filter, build
returns a tracker wrapping exactly that filter together with the stored object
model, camera data, evaluation_count and moving_average_update_rate, each
forwarded unchanged. -/
theorem build_pure_composition (self : RbcParticleFilterTrackerBuilder)
    (f : CoordinateFilter)
    (h : self.create_filter self.object_model self.params.max_kl_divergence
      = Except.ok f) :
    self.build = Except.ok
      { filter := f
        object_model := self.object_model
        camera_data := self.camera_data
        evaluation_count := self.params.evaluation_count
        moving_average_update_rate := self.params.moving_average_update_rate } := by
  simp [RbcParticleFilterTrackerBuilder.build, h]

/-- Witness for build_pure_composition on a concrete CPU-only builder. -/
theorem build_pure_composition_witness :
    RbcParticleFilterTrackerBuilder.build
        ⟨⟨6⟩, ⟨false, false⟩, ⟨2⟩, ⟨640, 480⟩, ⟨100, 1 / 2, 1⟩⟩
      = Except.ok
          ⟨⟨⟨6⟩, ⟨false⟩, [[0, 1, 2], [3, 4, 5]], 1⟩, ⟨2⟩, ⟨640, 480⟩, 100, 1 / 2⟩ :=
  build_pure_composition ⟨⟨6⟩, ⟨false, false⟩, ⟨2⟩, ⟨640, 480⟩, ⟨100, 1 / 2, 1⟩⟩
    ⟨⟨6⟩, ⟨false⟩, [[0, 1, 2], [3, 4, 5]], 1⟩ (by rfl)

/-! ## Coordinate particle filter (modelled from the spec) -/

/-- Modelled from the spec: the particle-filter belief (Particle Set) is an
ordered sequence of (state, weight) pairs.  The weight type is a parameter so
that the same development serves the real-weight reading and an executable
decidable instance. -/
structure ParticleSet (State W : Type) where
  particles : List (State × W)

/-- Modelled from the spec: the predict step of the coordinate particle filter
(RaoBlackwellCoordinateParticleFilter, not under src).  For the i-th particle a
noise vector is sampled (the i-th element of the supplied noise stream), its
state is pushed through the transition model with the given input, and its
weight is carried over unchanged. -/
def cpf_predict {State Noise Input W : Type}
    (transition : State → Noise → Input → State) (noise_stream : Nat → Noise)
    (input : Input) (belief : ParticleSet State W) : ParticleSet State W :=
  { particles := belief.particles.mapIdx fun i p =>
      (transition p.1 (noise_stream i) input, p.2) }

/-- Error raised by a filtering step. -/
inductive FilterError where
  | degenerateBeliefError
deriving DecidableEq

/-- Modelled from the spec: the degenerate-belief guard of the update step.
Every particle is reweighted by the likelihood of the observation under its
state; if every reweighted weight is zero the filter fails with
DegenerateBeliefError instead of returning a belief.  Weights live in an
arbitrary decidable multiplication-with-zero structure so the guard is
executable. -/
def cpf_update {State Obsrv W : Type} [MulZeroClass W] [DecidableEq W]
    (likelihood : State → Obsrv → W) (obsrv : Obsrv)
    (belief : ParticleSet State W) : Except FilterError (ParticleSet State W) :=
  if (belief.particles.map fun p => (p.1, p.2 * likelihood p.1 obsrv)).all
      (fun p => p.2 = 0) then
    Except.error FilterError.degenerateBeliefError
  else
    Except.ok
      { particles := belief.particles.map fun p =>
          (p.1, p.2 * likelihood p.1 obsrv) }

/-- C3: the predict step preserves every particle weight exactly, while every
particle state is replaced by the transition-model output for that state, the
given input and the sampled noise vector. -/
theorem cpf_predict_weight_invariant {State Noise Input W : Type}
    (transition : State → Noise → Input → State) (noise_stream : Nat → Noise)
    (input : Input) (belief : ParticleSet State W) :
    (cpf_predict transition noise_stream input belief).particles.map Prod.snd
        = belief.particles.map Prod.snd ∧
    ∀ i : Nat,
      ((cpf_predict transition noise_stream input belief).particles[i]?).map Prod.fst
        = (belief.particles[i]?).map fun p => transition p.1 (noise_stream i) input := by
  constructor
  · refine List.ext_getElem? fun i => ?_
    simp only [cpf_predict, List.getElem?_map, List.getElem?_mapIdx]
    cases belief.particles[i]? <;> rfl
  · intro i
    simp only [cpf_predict, List.getElem?_mapIdx]
    cases belief.particles[i]? <;> rfl

/-- C5: if the observation has zero likelihood for every particle, the update
step raises DegenerateBeliefError and returns no belief at all — in particular
no state is produced. -/
theorem cpf_update_degenerate {State Obsrv W : Type} [MulZeroClass W] [DecidableEq W]
    (likelihood : State → Obsrv → W) (obsrv : Obsrv) (belief : ParticleSet State W)
    (h : ∀ p ∈ belief.particles, likelihood p.1 obsrv = 0) :
    cpf_update likelihood obsrv belief
      = Except.error FilterError.degenerateBeliefError := by
  unfold cpf_update
  split
  case isTrue => rfl
  case isFalse hfalse =>
    exfalso
    apply hfalse
    rw [List.all_eq_true]
    intro p hp
    rcases List.mem_map.mp hp with ⟨q, hq, rfl⟩
    simp [h q hq]

/-- Witness for cpf_update_degenerate: one particle, rational weights, and a
likelihood that vanishes everywhere. -/
theorem cpf_update_degenerate_witness :
    cpf_update (fun (_ : Unit) (_ : Unit) => (0 : ℚ)) () ⟨[((), 1)]⟩
      = Except.error FilterError.degenerateBeliefError :=
  cpf_update_degenerate _ _ _ (by intro p _; rfl)

/-! ## Tracker point-estimate smoothing (modelled from the spec) -/

/-- Modelled from the spec: the exponential moving-average smoothing that
on_track (rms_gaussian_filter_object_tracker.hpp, declaration only) applies to
the point estimate: the smoothed state moves from its previous value toward
the new estimate by the fraction moving_average_update_rate. -/
def moving_average_smooth {E : Type} [AddCommGroup E] [Module ℝ E]
    (rate : ℝ) (previous estimate : E) : E :=
  previous + rate • (estimate - previous)

/-- Modelled from the spec: the stream of smoothed outputs across repeated
on_track calls, starting from an initial point estimate and consuming one
point estimate per call. -/
def smoothed_track {E : Type} [AddCommGroup E] [Module ℝ E]
    (rate : ℝ) (s0 : E) (estimates : Nat → E) : Nat → E
  | 0 => s0
  | n + 1 => moving_average_smooth rate (smoothed_track rate s0 estimates n)
      (estimates n)

/-- Closed form of the smoothed output under a constant estimate stream. -/
lemma smoothed_track_const {E : Type} [AddCommGroup E] [Module ℝ E]
    (rate : ℝ) (s0 c : E) (n : Nat) :
    smoothed_track rate s0 (fun _ => c) n = c + ((1 - rate) ^ n) • (s0 - c) := by
  induction n with
  | zero => simp [smoothed_track]
  | succ n ih =>
    rw [smoothed_track, ih, moving_average_smooth, pow_succ]
    module

/-- Deviation bound for a single outlier at position j in an otherwise
constant stream started at the constant. -/
lemma smoothed_track_outlier {E : Type} [NormedAddCommGroup E] [NormedSpace ℝ E]
    (rate : ℝ) (c o : E) (j : Nat) (h0 : 0 ≤ rate) (h1 : rate ≤ 1) (n : Nat) :
    (n ≤ j → smoothed_track rate c (fun i => if i = j then o else c) n = c) ∧
    ‖smoothed_track rate c (fun i => if i = j then o else c) n - c‖
      ≤ rate * ‖o - c‖ := by
  induction n with
  | zero =>
    refine ⟨fun _ => rfl, ?_⟩
    simp only [smoothed_track, sub_self, norm_zero]
    exact mul_nonneg h0 (norm_nonneg _)
  | succ n ih =>
    constructor
    · intro hle
      have hnj : n ≠ j := by omega
      rw [smoothed_track, ih.1 (by omega), moving_average_smooth]
      simp [hnj]
    · by_cases hnj : n = j
      · subst hnj
        rw [smoothed_track, ih.1 le_rfl, moving_average_smooth, if_pos rfl]
        have heq : c + rate • (o - c) - c = rate • (o - c) := by abel
        rw [heq, norm_smul, Real.norm_eq_abs, abs_of_nonneg h0]
      · rw [smoothed_track, moving_average_smooth]
        simp only [if_neg hnj]
        have heq :
            smoothed_track rate c (fun i => if i = j then o else c) n +
                rate • (c - smoothed_track rate c (fun i => if i = j then o else c) n)
                - c
              = (1 - rate) •
                  (smoothed_track rate c (fun i => if i = j then o else c) n - c) := by
          module
        rw [heq, norm_smul, Real.norm_eq_abs, abs_of_nonneg (by linarith)]
        calc (1 - rate) *
              ‖smoothed_track rate c (fun i => if i = j then o else c) n - c‖
            ≤ 1 * ‖smoothed_track rate c (fun i => if i = j then o else c) n - c‖ :=
              mul_le_mul_of_nonneg_right (by linarith) (norm_nonneg _)
          _ = ‖smoothed_track rate c (fun i => if i = j then o else c) n - c‖ :=
              one_mul _
          _ ≤ rate * ‖o - c‖ := ih.2

/-- C6: under a constant stream of identical point estimates the smoothed
output of on_track converges to that estimate, and for a single outlier amid
otherwise constant estimates the smoothed deviation from the constant never
exceeds moving_average_update_rate times the outlier's deviation. -/
theorem on_track_smoothing {E : Type} [NormedAddCommGroup E] [NormedSpace ℝ E]
    (rate : ℝ) (s0 c o : E) (j : Nat) (hpos : 0 < rate) (hle : rate ≤ 1) :
    Filter.Tendsto (smoothed_track rate s0 fun _ => c) Filter.atTop (nhds c) ∧
    ∀ n : Nat, ‖smoothed_track rate c (fun i => if i = j then o else c) n - c‖
      ≤ rate * ‖o - c‖ := by
  constructor
  · have h1 : Filter.Tendsto (fun n : Nat => (1 - rate) ^ n) Filter.atTop (nhds 0) :=
      tendsto_pow_atTop_nhds_zero_of_lt_one (by linarith) (by linarith)
    have h2 := h1.smul_const (s0 - c)
    rw [zero_smul] at h2
    have h3 := (tendsto_const_nhds (x := c) (f := Filter.atTop)).add h2
    rw [add_zero] at h3
    have hfun : (smoothed_track rate s0 fun _ => c)
        = fun n => c + ((1 - rate) ^ n) • (s0 - c) :=
      funext fun n => smoothed_track_const rate s0 c n
    rw [hfun]
    exact h3
  · exact fun n => (smoothed_track_outlier rate c o j hpos.le hle n).2

/-- Witness for on_track_smoothing at rate 1 on the real line. -/
theorem on_track_smoothing_witness :
    Filter.Tendsto (smoothed_track (1 : ℝ) (0 : ℝ) fun _ => (2 : ℝ))
        Filter.atTop (nhds 2) ∧
    ∀ n : Nat, ‖smoothed_track (1 : ℝ) (2 : ℝ)
        (fun i => if i = 0 then (5 : ℝ) else 2) n - 2‖ ≤ 1 * ‖(5 : ℝ) - 2‖ :=
  on_track_smoothing 1 0 2 5 0 (by norm_num) (by norm_num)

/-! ## Robust multi-sensor Gaussian filter (modelled from the spec) -/

/-- Modelled from the spec: the Gaussian belief of
RmsGaussianFilterObjectTracker (rms_gaussian_filter_object_tracker.hpp,
declarations only) is a mean vector and a covariance matrix over the full
state. -/
structure GaussBelief (n : Nat) where
  mean : Fin n → ℝ
  cov : Matrix (Fin n) (Fin n) ℝ

/-- Modelled from the spec: predict propagates the Gaussian belief through the
linear transition in closed form: mean = A mean + B input, covariance =
A cov Aᵗ + process noise covariance (over the reals the conjugate transpose is
the transpose). -/
def gf_predict {n p : Nat} (A : Matrix (Fin n) (Fin n) ℝ)
    (B : Matrix (Fin n) (Fin p) ℝ) (Q : Matrix (Fin n) (Fin n) ℝ)
    (input : Fin p → ℝ) (b : GaussBelief n) : GaussBelief n :=
  { mean := A.mulVec b.mean + B.mulVec input
    cov := A * b.cov * A.conjTranspose + Q }

/-- Modelled from the spec: the output of the sigma-point quadrature — a
deterministic finite family of weighted sample points, recorded as the
deviations of each point from the respective mean in state space (x) and in
pseudo-measurement space (y), with its quadrature weight. -/
structure SigmaPoints (n m k : Nat) where
  w : Fin k → ℝ
  x : Fin k → Fin n → ℝ
  y : Fin k → Fin m → ℝ

/-- State-block second moment of the quadrature points. -/
def quadCovXX {n m k : Nat} (sp : SigmaPoints n m k) : Matrix (Fin n) (Fin n) ℝ :=
  ∑ i, sp.w i • Matrix.vecMulVec (sp.x i) (sp.x i)

/-- State/measurement cross moment of the quadrature points. -/
def quadCovXY {n m k : Nat} (sp : SigmaPoints n m k) : Matrix (Fin n) (Fin m) ℝ :=
  ∑ i, sp.w i • Matrix.vecMulVec (sp.x i) (sp.y i)

/-- Measurement-block second moment of the quadrature points. -/
def quadCovYY {n m k : Nat} (sp : SigmaPoints n m k) : Matrix (Fin m) (Fin m) ℝ :=
  ∑ i, sp.w i • Matrix.vecMulVec (sp.y i) (sp.y i)

/-- Modelled from the spec: update performs the moment-matching correction.
With innovation covariance S = quadCovYY + R (R the measurement noise
covariance) and gain K = quadCovXY S⁻¹, the mean moves by K times the
innovation and the posterior covariance is the Schur complement
quadCovXX - quadCovXY S⁻¹ quadCovXYᵗ of S in the quadrature joint
covariance. -/
noncomputable def gf_update {n m k : Nat} (sp : SigmaPoints n m k)
    (R : Matrix (Fin m) (Fin m) ℝ) (innovation : Fin m → ℝ)
    (b : GaussBelief n) : GaussBelief n :=
  { mean := b.mean + (quadCovXY sp * (quadCovYY sp + R)⁻¹).mulVec innovation
    cov := quadCovXX sp - quadCovXY sp * (quadCovYY sp + R)⁻¹ *
        (quadCovXY sp).conjTranspose }

/-- One step of the Gaussian tracker loop: a predict or an update. -/
inductive GfStep (n p : Nat) where
  | predict (A : Matrix (Fin n) (Fin n) ℝ) (B : Matrix (Fin n) (Fin p) ℝ)
      (Q : Matrix (Fin n) (Fin n) ℝ) (input : Fin p → ℝ)
  | update (m k : Nat) (sp : SigmaPoints n m k) (R : Matrix (Fin m) (Fin m) ℝ)
      (innovation : Fin m → ℝ)

/-- Apply one step to a belief. -/
noncomputable def gf_step {n p : Nat} (b : GaussBelief n) : GfStep n p → GaussBelief n
  | GfStep.predict A B Q input => gf_predict A B Q input b
  | GfStep.update _ _ sp R innovation => gf_update sp R innovation b

/-- Run of the Gaussian filter over a list of steps. -/
noncomputable def gf_run {n p : Nat} (b : GaussBelief n) (steps : List (GfStep n p)) :
    GaussBelief n :=
  steps.foldl gf_step b

/-- Well-formed step data: the process noise covariance is positive
semidefinite, the quadrature weights are nonnegative and the measurement noise
covariance is positive definite. -/
def GfStep.Valid {n p : Nat} : GfStep n p → Prop
  | GfStep.predict _ _ Q _ => Q.PosSemidef
  | GfStep.update _ _ sp R _ => (∀ i, 0 ≤ sp.w i) ∧ R.PosDef

/-- Outer product of a real vector with itself is positive semidefinite. -/
lemma posSemidef_vecMulVec_self {ι : Type} [Fintype ι] (v : ι → ℝ) :
    (Matrix.vecMulVec v v).PosSemidef := by
  constructor
  · ext i j
    simp [Matrix.conjTranspose_apply, Matrix.vecMulVec_apply, mul_comm]
  · intro z
    have hv : (Matrix.vecMulVec v v).mulVec z
        = fun i => v i * Matrix.dotProduct v z := by
      funext i
      simp [Matrix.mulVec, Matrix.vecMulVec_apply, Matrix.dotProduct,
        Finset.mul_sum, mul_assoc]
    have hv2 : (fun i => v i * Matrix.dotProduct v z)
        = (Matrix.dotProduct v z) • v := by
      funext i
      simp [mul_comm]
    have hsz : star z = z := funext fun i => star_trivial (z i)
    rw [hv, hv2, hsz, Matrix.dotProduct_smul, smul_eq_mul, Matrix.dotProduct_comm]
    exact mul_self_nonneg _

/-- A nonnegative multiple of a positive semidefinite real matrix is positive
semidefinite. -/
lemma posSemidef_smul {ι : Type} [Fintype ι] {M : Matrix ι ι ℝ}
    (hM : M.PosSemidef) {c : ℝ} (hc : 0 ≤ c) : (c • M).PosSemidef := by
  constructor
  · show (c • M).conjTranspose = c • M
    rw [Matrix.conjTranspose_smul, star_trivial, hM.1.eq]
  · intro z
    rw [Matrix.smul_mulVec_assoc, Matrix.dotProduct_smul, smul_eq_mul]
    exact mul_nonneg hc (hM.2 z)

/-- A finite sum of positive semidefinite real matrices is positive
semidefinite. -/
lemma posSemidef_sum {ι κ : Type} [Fintype ι] (s : Finset κ)
    (f : κ → Matrix ι ι ℝ) (hf : ∀ j ∈ s, (f j).PosSemidef) :
    (∑ j ∈ s, f j).PosSemidef :=
  Finset.sum_induction f Matrix.PosSemidef (fun _ _ ha hb => ha.add hb)
    Matrix.PosSemidef.zero hf

/-- The quadrature joint covariance is the weighted second moment of the
stacked sigma-point deviations. -/
lemma fromBlocks_quadCov {n m k : Nat} (sp : SigmaPoints n m k) :
    Matrix.fromBlocks (quadCovXX sp) (quadCovXY sp)
        (quadCovXY sp).conjTranspose (quadCovYY sp)
      = ∑ i, sp.w i • Matrix.vecMulVec (Sum.elim (sp.x i) (sp.y i))
          (Sum.elim (sp.x i) (sp.y i)) := by
  ext a b
  cases a with
  | inl a =>
    cases b with
    | inl b =>
      simp [quadCovXX, Matrix.sum_apply, Matrix.vecMulVec_apply, Matrix.smul_apply]
    | inr b =>
      simp [quadCovXY, Matrix.sum_apply, Matrix.vecMulVec_apply, Matrix.smul_apply]
  | inr a =>
    cases b with
    | inl b =>
      simp only [Matrix.fromBlocks_apply₂₁, Matrix.conjTranspose_apply, quadCovXY,
        Matrix.sum_apply, Matrix.smul_apply, Matrix.vecMulVec_apply, smul_eq_mul,
        star_trivial, Sum.elim_inr, Sum.elim_inl]
      exact Finset.sum_congr rfl fun i _ => by ring
    | inr b =>
      simp [quadCovYY, Matrix.sum_apply, Matrix.vecMulVec_apply, Matrix.smul_apply]

/-- A real Hermitian matrix equals its transpose. -/
lemma transpose_eq_of_isHermitian {ι : Type} {M : Matrix ι ι ℝ}
    (h : M.IsHermitian) : M.transpose = M := by
  ext i j
  have h2 : M.conjTranspose i j = M i j := by rw [h.eq]
  simpa [Matrix.conjTranspose_apply, Matrix.transpose_apply] using h2

/-- Padding a positive semidefinite block into the lower-right corner keeps
positive semidefiniteness. -/
lemma posSemidef_fromBlocks_zero {ι κ : Type} [Fintype ι] [Fintype κ]
    {R : Matrix κ κ ℝ} (hR : R.PosSemidef) :
    (Matrix.fromBlocks (0 : Matrix ι ι ℝ) 0 0 R).PosSemidef := by
  constructor
  · show (Matrix.fromBlocks (0 : Matrix ι ι ℝ) 0 0 R).conjTranspose
        = Matrix.fromBlocks 0 0 0 R
    rw [Matrix.fromBlocks_conjTranspose]
    simp [hR.1.eq, transpose_eq_of_isHermitian hR.1]
  · intro z
    rw [Matrix.fromBlocks_mulVec]
    simp only [Matrix.zero_mulVec, add_zero, zero_add]
    have h3 : Matrix.dotProduct (star z)
          (Sum.elim (0 : ι → ℝ) (R.mulVec (z ∘ Sum.inr)))
        = Matrix.dotProduct (star (z ∘ Sum.inr)) (R.mulVec (z ∘ Sum.inr)) := by
      unfold Matrix.dotProduct
      rw [Fintype.sum_sum_type]
      simp [Function.comp]
    rw [h3]
    exact hR.2 _

/-- The covariance after gf_predict stays positive semidefinite. -/
lemma gf_predict_cov_posSemidef {n p : Nat} {A : Matrix (Fin n) (Fin n) ℝ}
    (B : Matrix (Fin n) (Fin p) ℝ) {Q : Matrix (Fin n) (Fin n) ℝ}
    (input : Fin p → ℝ) {b : GaussBelief n} (hb : b.cov.PosSemidef)
    (hQ : Q.PosSemidef) : (gf_predict A B Q input b).cov.PosSemidef :=
  (hb.mul_mul_conjTranspose_same A).add hQ

/-- The covariance after gf_update is positive semidefinite whenever the
quadrature weights are nonnegative and the measurement noise covariance is
positive definite. -/
lemma gf_update_cov_posSemidef {n m k : Nat} (sp : SigmaPoints n m k)
    {R : Matrix (Fin m) (Fin m) ℝ} (innovation : Fin m → ℝ) (b : GaussBelief n)
    (hw : ∀ i, 0 ≤ sp.w i) (hR : R.PosDef) :
    (gf_update sp R innovation b).cov.PosSemidef := by
  have hjoint : (Matrix.fromBlocks (quadCovXX sp) (quadCovXY sp)
      (quadCovXY sp).conjTranspose (quadCovYY sp + R)).PosSemidef := by
    have hsplit : Matrix.fromBlocks (quadCovXX sp) (quadCovXY sp)
        (quadCovXY sp).conjTranspose (quadCovYY sp + R)
        = Matrix.fromBlocks (quadCovXX sp) (quadCovXY sp)
            (quadCovXY sp).conjTranspose (quadCovYY sp)
          + Matrix.fromBlocks 0 0 0 R := by
      rw [Matrix.fromBlocks_add]
      simp
    rw [hsplit, fromBlocks_quadCov]
    refine Matrix.PosSemidef.add ?_ (posSemidef_fromBlocks_zero hR.posSemidef)
    refine posSemidef_sum Finset.univ _ fun i _ => ?_
    exact posSemidef_smul (posSemidef_vecMulVec_self _) (hw i)
  have hS : (quadCovYY sp + R).PosDef := by
    have hYY : (quadCovYY sp).PosSemidef := by
      refine posSemidef_sum Finset.univ _ fun i _ => ?_
      exact posSemidef_smul (posSemidef_vecMulVec_self _) (hw i)
    exact Matrix.PosDef.posSemidef_add hYY hR
  haveI : Invertible (quadCovYY sp + R) := hS.isUnit.invertible
  have hschur :=
    (Matrix.PosSemidef.fromBlocks₂₂ (quadCovXX sp) (quadCovXY sp) hS).mp hjoint
  simpa [gf_update] using hschur

/-- Positive semidefiniteness of the covariance is preserved along any list of
valid steps. -/
lemma gf_run_cov_posSemidef_aux {n p : Nat} (l : List (GfStep n p)) :
    ∀ b : GaussBelief n, b.cov.PosSemidef → (∀ s ∈ l, s.Valid) →
      (gf_run b l).cov.PosSemidef := by
  induction l with
  | nil => exact fun b hb _ => hb
  | cons s l ih =>
    intro b hb hv
    have hs : s.Valid := hv s (List.mem_cons_self s l)
    have hstep : (gf_step b s).cov.PosSemidef := by
      cases s with
      | predict A B Q input => exact gf_predict_cov_posSemidef B input hb hs
      | update m k sp R innovation =>
          exact gf_update_cov_posSemidef sp innovation b hs.1 hs.2
    exact ih (gf_step b s) hstep fun t ht => hv t (List.mem_cons_of_mem _ ht)

/-- C4: along every run of the Gaussian filter started from a symmetric
positive-definite initial covariance — with positive-semidefinite process
noise, nonnegative quadrature weights and positive-definite measurement noise
at each step — the belief covariance after every prefix of predict and update
steps is symmetric and positive semidefinite. -/
theorem gf_run_cov_symm_posSemidef {n p : Nat} (b0 : GaussBelief n)
    (steps pre post : List (GfStep n p)) (h0 : b0.cov.PosDef)
    (hv : ∀ s ∈ steps, s.Valid) (hsplit : steps = pre ++ post) :
    (gf_run b0 pre).cov.PosSemidef ∧
    (gf_run b0 pre).cov.transpose = (gf_run b0 pre).cov := by
  have hpre : ∀ s ∈ pre, s.Valid := fun s hs =>
    hv s (hsplit ▸ List.mem_append_left _ hs)
  have hpsd := gf_run_cov_posSemidef_aux pre b0 h0.posSemidef hpre
  exact ⟨hpsd, transpose_eq_of_isHermitian hpsd.1⟩

/-- Witness for gf_run_cov_symm_posSemidef: a one-dimensional run with one
predict step and one update step. -/
theorem gf_run_cov_symm_posSemidef_witness :
    (gf_run (GaussBelief.mk (fun _ => 0) 1)
        ([GfStep.predict 1 1 1 (fun _ => 0),
          GfStep.update 1 0 ⟨fun i => i.elim0, fun i => i.elim0, fun i => i.elim0⟩
            1 (fun _ => 0)] : List (GfStep 1 1))).cov.PosSemidef ∧
    (gf_run (GaussBelief.mk (fun _ => 0) 1)
        ([GfStep.predict 1 1 1 (fun _ => 0),
          GfStep.update 1 0 ⟨fun i => i.elim0, fun i => i.elim0, fun i => i.elim0⟩
            1 (fun _ => 0)] : List (GfStep 1 1))).cov.transpose
      = (gf_run (GaussBelief.mk (fun _ => 0) 1)
        ([GfStep.predict 1 1 1 (fun _ => 0),
          GfStep.update 1 0 ⟨fun i => i.elim0, fun i => i.elim0, fun i => i.elim0⟩
            1 (fun _ => 0)] : List (GfStep 1 1))).cov :=
  gf_run_cov_symm_posSemidef (GaussBelief.mk (fun _ => 0) 1)
    ([GfStep.predict 1 1 1 (fun _ => 0),
      GfStep.update 1 0 ⟨fun i => i.elim0, fun i => i.elim0, fun i => i.elim0⟩
        1 (fun _ => 0)] : List (GfStep 1 1))
    ([GfStep.predict 1 1 1 (fun _ => 0),
      GfStep.update 1 0 ⟨fun i => i.elim0, fun i => i.elim0, fun i => i.elim0⟩
        1 (fun _ => 0)] : List (GfStep 1 1)) []
    Matrix.PosDef.one
    (by
      intro s hs
      simp only [List.mem_cons, List.not_mem_nil, or_false] at hs
      rcases hs with rfl | rfl
      · exact Matrix.PosSemidef.one
      · exact ⟨fun i => i.elim0, Matrix.PosDef.one⟩)
    (List.append_nil _).symm

end Dbot
